import Mathlib

/-!
Verification of the miette diagnostic reporter (`src/reporter.rs`).

This file gives a shallow embedding of `MietteReporter::render_snippet` and
`MietteReporter::render_causes` and proves properties about line numbering,
caret alignment, line-ending handling and error conditions.

Modelling conventions:
* Machine integers (`usize`) become `Nat`; no overflow is relevant here.
* Output is modelled as the list of text chunks separated by the `writeln!`
  calls of the renderer (each element is one emitted line; the leading
  `"\n"` of a snippet shows up as a leading empty chunk).
* The `indenter` crate's writers are modelled directly: the uniform format
  prepends four spaces to each non-empty line; the numbered format prefixes
  the first line with the index right-aligned in width 4 followed by `": "`
  and later lines with six spaces.
* Panicking paths (`expect("Bad utf8 detected")`, `todo!("Multiline
  highlights.")`) and the `fmt::Error` produced when `read_span` fails are
  modelled as values of `RenderError` in an `Except` result.
-/

/-- A byte-offset span `[start, stop)` within a source.  The protocol crate
(`SourceSpan`) is not under src/; per the spec's data model a span holds a
start and end byte offset with `start ≤ end` and `len = end - start`.
(`stop` stands for the source's `end`, which is a keyword in Lean.) -/
structure Span where
  start : Nat
  stop : Nat
deriving DecidableEq

/-- Modelled from the spec: `len = end − start` for a span. -/
def Span.len (s : Span) : Nat := s.stop - s.start

/-- The failure conditions of a snippet render: invalid UTF-8 source bytes
(`MalformedSource`), the fatal multiline-highlight branch
(`UnsupportedHighlight`), and the `fmt::Error` used to propagate a
`read_span` failure. -/
inductive RenderError where
  | malformedSource
  | unsupportedHighlight
  | fmtError
deriving DecidableEq

/-- Modelled from the spec: `SpanContents` (protocol.rs is not under src/) —
the raw bytes covering the lines touched by the requested span, plus the
line and column of the span's start.  `line` is zero-indexed: the spec's
concrete rendering scenario (first emitted line numbered `1` although the
renderer increments `line` before every flush) forces zero-indexing. -/
structure SpanContents where
  data : List Nat
  line : Nat
  column : Nat

/-- A `DiagnosticSnippet` together with its source's `read_span` capability
(the `Source` trait object is supplied by the caller and is not under
src/, so it is carried as a function). -/
structure Snippet where
  source_name : String
  message : Option String
  context : Span
  highlights : Option (List (String × Span))
  read_span : Span → Except Unit SpanContents

/-- Rust's `char::len_utf8`: the number of bytes of the character's UTF-8
encoding. -/
def lenUtf8 (c : Char) : Nat :=
  if c.toNat < 0x80 then 1
  else if c.toNat < 0x800 then 2
  else if c.toNat < 0x10000 then 3
  else 4

/-- Total UTF-8 byte length of a character list. -/
def byteLen : List Char → Nat
  | [] => 0
  | c :: cs => lenUtf8 c + byteLen cs

/-- The UTF-8 encoding of one character (used to build the byte contents a
source reader hands to the renderer). -/
def encodeChar (c : Char) : List Nat :=
  if c.toNat < 0x80 then [c.toNat]
  else if c.toNat < 0x800 then
    [0xC0 + c.toNat / 0x40, 0x80 + c.toNat % 0x40]
  else if c.toNat < 0x10000 then
    [0xE0 + c.toNat / 0x1000, 0x80 + c.toNat / 0x40 % 0x40, 0x80 + c.toNat % 0x40]
  else
    [0xF0 + c.toNat / 0x40000, 0x80 + c.toNat / 0x1000 % 0x40,
     0x80 + c.toNat / 0x40 % 0x40, 0x80 + c.toNat % 0x40]

/-- UTF-8 encoding of a character list. -/
def encodeUtf8 : List Char → List Nat
  | [] => []
  | c :: cs => encodeChar c ++ encodeUtf8 cs

/-- One step of strict UTF-8 decoding: given a first byte and the bytes
after it, the decoded character and the number of continuation bytes it
consumes, or `none` exactly when Rust's `std::str::from_utf8` would reject
the sequence (overlong forms, surrogates, values above `U+10FFFF`, bad or
missing continuation bytes). -/
def decodeStep (b0 : Nat) (bs : List Nat) : Option (Char × Nat) :=
  if b0 < 0x80 then some (Char.ofNat b0, 0)
  else if b0 < 0xC2 then none
  else if b0 < 0xE0 then
    match bs with
    | b1 :: _ =>
      if 0x80 ≤ b1 ∧ b1 < 0xC0 then
        some (Char.ofNat ((b0 - 0xC0) * 0x40 + (b1 - 0x80)), 1)
      else none
    | [] => none
  else if b0 < 0xF0 then
    match bs with
    | b1 :: b2 :: _ =>
      if (if b0 = 0xE0 then 0xA0 else 0x80) ≤ b1 ∧ b1 < (if b0 = 0xED then 0xA0 else 0xC0) ∧
          0x80 ≤ b2 ∧ b2 < 0xC0 then
        some (Char.ofNat ((b0 - 0xE0) * 0x1000 + (b1 - 0x80) * 0x40 + (b2 - 0x80)), 2)
      else none
    | _ => none
  else if b0 < 0xF5 then
    match bs with
    | b1 :: b2 :: b3 :: _ =>
      if (if b0 = 0xF0 then 0x90 else 0x80) ≤ b1 ∧ b1 < (if b0 = 0xF4 then 0x90 else 0xC0) ∧
          0x80 ≤ b2 ∧ b2 < 0xC0 ∧ 0x80 ≤ b3 ∧ b3 < 0xC0 then
        some (Char.ofNat ((b0 - 0xF0) * 0x40000 + (b1 - 0x80) * 0x1000 +
          (b2 - 0x80) * 0x40 + (b3 - 0x80)), 3)
      else none
    | _ => none
  else none

/-- `std::str::from_utf8` on a byte list: strict UTF-8 decoding, returning
`none` exactly when Rust's `from_utf8` returns an error. -/
def decodeUtf8 : List Nat → Option (List Char)
  | [] => some []
  | b0 :: bs =>
    match decodeStep b0 bs with
    | none => none
    | some (c, k) => (decodeUtf8 (bs.drop k)).map (fun cs => c :: cs)
termination_by bs => bs.length
decreasing_by simp [List.length_drop]; omega

/-- `s.repeat(n)` for a single character, as used by `" ".repeat(..)` and
`"^".repeat(..)` in the annotation writer. -/
def strRep (n : Nat) (c : Char) : String := String.mk (List.replicate n c)

/-- Rust's `{: <2}` format: left-align a string, padding with spaces to a
minimum width of two characters. -/
def padLeftAlign2 (s : String) : String := s ++ strRep (2 - s.length) ' '

/-- One flushed source line: `writeln!(indented(f), "{: <2} | {}", line,
line_str)` — the uniform indenter prefix, the left-aligned line number, the
gutter bar and the buffered visible text. -/
def srcLine (line : Nat) (lineStr : List Char) : String :=
  "    " ++ padLeftAlign2 (toString line) ++ " | " ++ String.mk lineStr

/-- One caret annotation row (reporter.rs lines 149-156): the indented
`"⫶  | "` gutter, `span.start - line_offset` spaces, `span.len()` carets, a
space and the label. -/
def annRow (label : String) (span : Span) (lineOffset : Nat) : String :=
  "    " ++ padLeftAlign2 "⫶" ++ " | " ++ strRep (span.start - lineOffset) ' ' ++
    strRep span.len '^' ++ " " ++ label

/-- The highlight loop run after each flush (reporter.rs lines 145-164):
a highlight entirely within the flushed line's byte range emits an
annotation row; one that starts in the range but ends at or past the
current offset hits `todo!("Multiline highlights.")`; all others are
skipped. -/
def highlightRows (hl : List (String × Span)) (lineOffset offset : Nat) :
    Except RenderError (List String) :=
  match hl with
  | [] => Except.ok []
  | (label, span) :: t =>
    if lineOffset ≤ span.start ∧ span.stop < offset then
      (highlightRows t lineOffset offset).map (fun rows => annRow label span lineOffset :: rows)
    else if span.start < offset ∧ lineOffset ≤ span.start ∧ offset ≤ span.stop then
      Except.error RenderError.unsupportedHighlight
    else
      highlightRows t lineOffset offset

/-- The text emitted by one flush: the numbered source line followed by its
annotation rows (or the fatal multiline condition). -/
def flushEmit (hs : Option (List (String × Span))) (line lineOffset offset : Nat)
    (lineStr : List Char) : Except RenderError (List String) :=
  match hs with
  | none => Except.ok [srcLine line lineStr]
  | some hl => (highlightRows hl lineOffset offset).map (fun rows => srcLine line lineStr :: rows)

/-- The loop epilogue of reporter.rs lines 138-167 for one iteration: the
end-of-input line increment, the flush check (`column == 0 ||
iter.peek().is_none()`), the flush itself and the `line_offset := offset`
update.  Returns the emitted chunks together with the updated `line`,
`line_offset` and `line_str`. -/
def stepFlush (hs : Option (List (String × Span))) (rest : List Char)
    (line column offset lineOffset : Nat) (lineStr : List Char) :
    Except RenderError (List String) × Nat × Nat × List Char :=
  let line2 := if rest.isEmpty then line + 1 else line
  if column = 0 ∨ rest.isEmpty then
    (flushEmit hs line2 lineOffset offset lineStr, line2, offset, [])
  else
    (Except.ok [], line2, lineOffset, lineStr)

/-- Sequencing of one iteration's emitted chunks with the rest of the
scan, with a fatal condition cutting the render short. -/
def contWith (pre : Except RenderError (List String))
    (r : Except RenderError (List String)) : Except RenderError (List String) :=
  match pre with
  | Except.error e => Except.error e
  | Except.ok emitted => r.map (fun x => emitted ++ x)

/-- The scan loop of `render_snippet` (reporter.rs lines 116-168): one
forward pass over the decoded characters.  `offset` advances by the
character's UTF-8 length before the match; `\r\n` is consumed as a pair
(one extra offset byte, line increment, column reset, nothing buffered);
a bare `\r` and any ordinary character are buffered and bump `column`;
`\n` increments `line` and resets `column`. -/
def renderLoop (hs : Option (List (String × Span))) :
    List Char → Nat → Nat → Nat → Nat → List Char → Except RenderError (List String)
  | [], _, _, _, _, _ => Except.ok []
  | c :: rest, line, column, offset, lineOffset, lineStr =>
    if c = '\r' then
      if rest.head? = some '\n' then
        let st := stepFlush hs rest.tail (line + 1) 0 (offset + lenUtf8 c + 1) lineOffset lineStr
        contWith st.1 (renderLoop hs rest.tail st.2.1 0 (offset + lenUtf8 c + 1) st.2.2.1 st.2.2.2)
      else
        let st := stepFlush hs rest line (column + 1) (offset + lenUtf8 c) lineOffset (lineStr ++ [c])
        contWith st.1 (renderLoop hs rest st.2.1 (column + 1) (offset + lenUtf8 c) st.2.2.1 st.2.2.2)
    else if c = '\n' then
      let st := stepFlush hs rest (line + 1) 0 (offset + lenUtf8 c) lineOffset lineStr
      contWith st.1 (renderLoop hs rest st.2.1 0 (offset + lenUtf8 c) st.2.2.1 st.2.2.2)
    else
      let st := stepFlush hs rest line (column + 1) (offset + lenUtf8 c) lineOffset (lineStr ++ [c])
      contWith st.1 (renderLoop hs rest st.2.1 (column + 1) (offset + lenUtf8 c) st.2.2.1 st.2.2.2)
termination_by cs _ _ _ _ _ => cs.length
decreasing_by all_goals (simp [List.length_tail]; try omega)

/-- `MietteReporter::render_snippet` (reporter.rs lines 92-170): the snippet
header (`"\n[{source_name}]"`, optional `" {message}:"`, two newlines), the
`read_span` call (failure mapped to `fmt::Error`), UTF-8 decoding (failure
is the `MalformedSource` condition) and the scan loop starting at the
context's start offset. -/
def render_snippet (s : Snippet) : Except RenderError (List String) :=
  let headerLine := "[" ++ s.source_name ++ "]" ++
    (match s.message with | some m => " " ++ m ++ ":" | none => "")
  match s.read_span s.context with
  | Except.error _ => Except.error RenderError.fmtError
  | Except.ok cd =>
    match decodeUtf8 cd.data with
    | none => Except.error RenderError.malformedSource
    | some context =>
      match renderLoop s.highlights context cd.line cd.column s.context.start s.context.start [] with
      | Except.error e => Except.error e
      | Except.ok body => Except.ok ("" :: headerLine :: "" :: body)

/-- Modelled from the spec: a whole-text in-memory source (the `Source`
implementations are not under src/).  Its reader returns the full text's
UTF-8 bytes with the zero-indexed line and the column of the context's
start; the snippet's context covers the whole text starting at byte 0. -/
def mkSnippet (text : List Char) (hl : Option (List (String × Span))) : Snippet :=
  { source_name := "src"
    message := none
    context := ⟨0, (encodeUtf8 text).length⟩
    highlights := hl
    read_span := fun _ => Except.ok ⟨encodeUtf8 text, 0, 0⟩ }

/-- An error value with a message and an optional source error, as walked
by `Chain::new`: `leaf` has no underlying cause, `node` has one. -/
inductive ErrorObj where
  | leaf : String → ErrorObj
  | node : String → ErrorObj → ErrorObj

/-- `Error::source()` of an error value. -/
def ErrorObj.sourceOpt : ErrorObj → Option ErrorObj
  | .leaf _ => none
  | .node _ s => some s

/-- The messages yielded by `Chain::new(cause)`: the cause itself, then its
successive sources. -/
def chainList : ErrorObj → List String
  | .leaf m => [m]
  | .node m s => m :: chainList s

/-- `str::split('\n')` on a character list, as performed by the `indenter`
writers (an empty input yields one empty line). -/
def splitLinesL : List Char → List (List Char)
  | [] => [[]]
  | c :: cs =>
    if c = '\n' then [] :: splitLinesL cs
    else
      match splitLinesL cs with
      | h :: t => (c :: h) :: t
      | [] => [[c]]

/-- The `indenter` uniform format (the default of `indented(f)`): each
non-empty line of the written text is prefixed with four spaces. -/
def uniformIndent (s : String) : String :=
  String.intercalate "\n" ((splitLinesL s.data).map
    (fun l => if l = [] then "" else "    " ++ String.mk l))

/-- Rust's `{: >4}` format: right-align a string, padding with spaces to a
minimum width of four characters. -/
def padRightAlign4 (s : String) : String := strRep (4 - s.length) ' ' ++ s

/-- The `indenter` numbered format (`indented(f).ind(n)`): the first
non-empty line is prefixed with the index right-aligned in width four and
`": "`, later non-empty lines with six spaces. -/
def numberedIndent (n : Nat) (s : String) : String :=
  match splitLinesL s.data with
  | [] => ""
  | h :: t =>
    String.intercalate "\n"
      ((if h = [] then "" else padRightAlign4 (toString n) ++ ": " ++ String.mk h) ::
        t.map (fun l => if l = [] then "" else "      " ++ String.mk l))

/-- `MietteReporter::render_causes` (reporter.rs lines 69-90): nothing when
the diagnostic has no source; otherwise `"\n\nCaused by:"`, then for each
chain member a newline followed by the message written through the numbered
indenter (index = position) when the cause itself has a source, and through
the uniform indenter otherwise. -/
def render_causes (source : Option ErrorObj) : String :=
  match source with
  | none => ""
  | some cause =>
    let multiple := cause.sourceOpt.isSome
    "\n\nCaused by:" ++ String.join ((List.enum (chainList cause)).map
      (fun p => "\n" ++ (if multiple then numberedIndent p.1 p.2 else uniformIndent p.2)))

/-- `\n`- or `\r\n`-joined lines, with a trailing separator after each
line: the shape of a line-break-terminated source text. -/
def joinSep (sep : List Char) (ls : List (List Char)) : List Char :=
  match ls with
  | [] => []
  | l :: t => l ++ sep ++ joinSep sep t

/-- The source lines a render emits for consecutive fully-terminated lines
that are not the last flush: the line flushed after `k` line breaks is
numbered `startLine + k + 1`. -/
def numberedLines (startLine : Nat) : List (List Char) → List String
  | [] => []
  | l :: t => srcLine (startLine + 1) l :: numberedLines (startLine + 1) t

theorem contWith_ok (es : List String) (r : Except RenderError (List String)) :
    contWith (Except.ok es) r = r.map (fun x => es ++ x) := rfl

theorem contWith_error (e : RenderError) (r : Except RenderError (List String)) :
    contWith (Except.error e) r = Except.error e := rfl

theorem contWith_nil (r : Except RenderError (List String)) :
    contWith (Except.ok []) r = r := by
  cases r <;> simp [contWith, Except.map]

theorem contWith_okNil (e : Except RenderError (List String)) :
    contWith e (Except.ok []) = e := by
  cases e <;> simp [contWith, Except.map]

theorem lenUtf8_lf : lenUtf8 '\n' = 1 := by decide

theorem lenUtf8_cr : lenUtf8 '\r' = 1 := by decide

theorem stepFlush_noFlush (hs : Option (List (String × Span))) (rest : List Char)
    (line column offset lineOffset : Nat) (lineStr : List Char) (h : rest ≠ []) :
    stepFlush hs rest line (column + 1) offset lineOffset lineStr =
      (Except.ok [], line, lineOffset, lineStr) := by
  cases rest with
  | nil => exact absurd rfl h
  | cons r rs => simp [stepFlush]

theorem stepFlush_flush (hs : Option (List (String × Span))) (rest : List Char)
    (line offset lineOffset : Nat) (lineStr : List Char) (h : rest ≠ []) :
    stepFlush hs rest line 0 offset lineOffset lineStr =
      (flushEmit hs line lineOffset offset lineStr, line, offset, []) := by
  cases rest with
  | nil => exact absurd rfl h
  | cons r rs => simp [stepFlush]

theorem stepFlush_last (hs : Option (List (String × Span)))
    (line column offset lineOffset : Nat) (lineStr : List Char) :
    stepFlush hs [] line column offset lineOffset lineStr =
      (flushEmit hs (line + 1) lineOffset offset lineStr, line + 1, offset, []) := by
  simp [stepFlush]

theorem renderLoop_plain (hs : Option (List (String × Span))) (c : Char) (rest : List Char)
    (line column offset lineOffset : Nat) (buf : List Char)
    (hcr : c ≠ '\r') (hlf : c ≠ '\n') (hrest : rest ≠ []) :
    renderLoop hs (c :: rest) line column offset lineOffset buf =
      renderLoop hs rest line (column + 1) (offset + lenUtf8 c) lineOffset (buf ++ [c]) := by
  rw [renderLoop]
  rw [if_neg hcr, if_neg hlf,
    stepFlush_noFlush hs rest line column (offset + lenUtf8 c) lineOffset (buf ++ [c]) hrest]
  exact contWith_nil _

theorem renderLoop_lf (hs : Option (List (String × Span))) (rest : List Char)
    (line column offset lineOffset : Nat) (buf : List Char) (hrest : rest ≠ []) :
    renderLoop hs ('\n' :: rest) line column offset lineOffset buf =
      contWith (flushEmit hs (line + 1) lineOffset (offset + 1) buf)
        (renderLoop hs rest (line + 1) 0 (offset + 1) (offset + 1) []) := by
  rw [renderLoop]
  rw [if_neg (by decide : ¬ ('\n' : Char) = '\r'), if_pos rfl]
  rw [show lenUtf8 '\n' = 1 from rfl,
    stepFlush_flush hs rest (line + 1) (offset + 1) lineOffset buf hrest]

theorem renderLoop_crlf (hs : Option (List (String × Span))) (rest2 : List Char)
    (line column offset lineOffset : Nat) (buf : List Char) (hrest : rest2 ≠ []) :
    renderLoop hs ('\r' :: '\n' :: rest2) line column offset lineOffset buf =
      contWith (flushEmit hs (line + 1) lineOffset (offset + 2) buf)
        (renderLoop hs rest2 (line + 1) 0 (offset + 2) (offset + 2) []) := by
  rw [renderLoop]
  rw [if_pos rfl, if_pos (show ('\n' :: rest2).head? = some '\n' from rfl)]
  rw [show lenUtf8 '\r' = 1 from rfl]
  rw [show ('\n' :: rest2).tail = rest2 from rfl,
    stepFlush_flush hs rest2 (line + 1) (offset + 1 + 1) lineOffset buf hrest]

theorem renderLoop_cr (hs : Option (List (String × Span))) (c2 : Char) (rest : List Char)
    (line column offset lineOffset : Nat) (buf : List Char) (h2 : c2 ≠ '\n') :
    renderLoop hs ('\r' :: c2 :: rest) line column offset lineOffset buf =
      renderLoop hs (c2 :: rest) line (column + 1) (offset + 1) lineOffset (buf ++ ['\r']) := by
  rw [renderLoop]
  rw [if_pos rfl, if_neg (by simp [h2] : ¬ (c2 :: rest).head? = some '\n')]
  rw [show lenUtf8 '\r' = 1 from rfl,
    stepFlush_noFlush hs (c2 :: rest) line column (offset + 1) lineOffset
      (buf ++ ['\r']) (List.cons_ne_nil c2 rest)]
  exact contWith_nil _

theorem renderLoop_plainLast (hs : Option (List (String × Span))) (c : Char)
    (line column offset lineOffset : Nat) (buf : List Char)
    (hcr : c ≠ '\r') (hlf : c ≠ '\n') :
    renderLoop hs [c] line column offset lineOffset buf =
      flushEmit hs (line + 1) lineOffset (offset + lenUtf8 c) (buf ++ [c]) := by
  rw [renderLoop]
  rw [if_neg hcr, if_neg hlf]
  simp [stepFlush_last, renderLoop.eq_1, contWith_okNil]

theorem renderLoop_lfLast (hs : Option (List (String × Span)))
    (line column offset lineOffset : Nat) (buf : List Char) :
    renderLoop hs ['\n'] line column offset lineOffset buf =
      flushEmit hs (line + 2) lineOffset (offset + 1) buf := by
  rw [renderLoop]
  rw [if_neg (by decide : ¬ ('\n' : Char) = '\r'), if_pos rfl]
  rw [show lenUtf8 '\n' = 1 from rfl]
  simp [stepFlush_last, renderLoop.eq_1, contWith_okNil]

theorem renderLoop_crlfLast (hs : Option (List (String × Span)))
    (line column offset lineOffset : Nat) (buf : List Char) :
    renderLoop hs ['\r', '\n'] line column offset lineOffset buf =
      flushEmit hs (line + 2) lineOffset (offset + 2) buf := by
  rw [renderLoop]
  rw [if_pos rfl, if_pos (show (['\n'] : List Char).head? = some '\n' from rfl)]
  rw [show lenUtf8 '\r' = 1 from rfl]
  rw [show (['\n'] : List Char).tail = [] from rfl]
  simp [stepFlush_last, renderLoop.eq_1, contWith_okNil]

theorem byteLen_append (a b : List Char) : byteLen (a ++ b) = byteLen a + byteLen b := by
  induction a with
  | nil => simp [byteLen]
  | cons c cs ih => simp [byteLen, ih, Nat.add_assoc]

theorem renderLoop_plainRun (hs : Option (List (String × Span))) (cs : List Char)
    (h : ∀ c ∈ cs, c ≠ '\n' ∧ c ≠ '\r') :
    ∀ (rest : List Char), rest ≠ [] → ∀ (line column offset lineOffset : Nat) (buf : List Char),
    renderLoop hs (cs ++ rest) line column offset lineOffset buf =
      renderLoop hs rest line (column + cs.length) (offset + byteLen cs) lineOffset (buf ++ cs) := by
  induction cs with
  | nil =>
    intro rest _ line column offset lineOffset buf
    simp [byteLen]
  | cons c cs ih =>
    intro rest hrest line column offset lineOffset buf
    have hc := h c (List.mem_cons_self c cs)
    have hcs : ∀ x ∈ cs, x ≠ '\n' ∧ x ≠ '\r' := fun x hx => h x (List.mem_cons_of_mem c hx)
    rw [List.cons_append,
      renderLoop_plain hs c (cs ++ rest) line column offset lineOffset buf hc.2 hc.1
        (by simp [hrest]),
      ih hcs rest hrest line (column + 1) (offset + lenUtf8 c) lineOffset (buf ++ [c])]
    congr 1
    · simp [List.length_cons]; omega
    · rw [byteLen]; omega
    · simp

theorem highlightRows_skip (hl : List (String × Span)) (lineOffset offset : Nat)
    (h : ∀ p ∈ hl, p.2.start < lineOffset ∨ (p.2.start ≤ p.2.stop ∧ offset ≤ p.2.start)) :
    highlightRows hl lineOffset offset = Except.ok [] := by
  induction hl with
  | nil => rfl
  | cons p t ih =>
    obtain ⟨label, span⟩ := p
    have hp := h _ (List.mem_cons_self _ t)
    have ht : ∀ q ∈ t, q.2.start < lineOffset ∨ (q.2.start ≤ q.2.stop ∧ offset ≤ q.2.start) :=
      fun q hq => h q (List.mem_cons_of_mem _ hq)
    rw [highlightRows]
    rw [if_neg (by simp only at hp; omega), if_neg (by simp only at hp; omega)]
    exact ih ht

theorem flushEmit_skip (hs : Option (List (String × Span))) (line lineOffset offset : Nat)
    (buf : List Char)
    (h : ∀ p ∈ hs.getD [], p.2.start < lineOffset ∨ (p.2.start ≤ p.2.stop ∧ offset ≤ p.2.start)) :
    flushEmit hs line lineOffset offset buf = Except.ok [srcLine line buf] := by
  cases hs with
  | none => rfl
  | some hl =>
    rw [flushEmit, highlightRows_skip hl lineOffset offset (by simpa using h)]
    rfl

theorem exceptMap_map (f g : List String → List String) (r : Except RenderError (List String)) :
    (r.map f).map g = r.map (fun x => g (f x)) := by cases r <;> rfl

theorem exceptMap_nilPre (r : Except RenderError (List String)) :
    r.map (fun x => ([] : List String) ++ x) = r := by cases r <;> simp [Except.map]

theorem renderLoop_lineSep (sep : List Char) (hsep : sep = ['\n'] ∨ sep = ['\r', '\n'])
    (hs : Option (List (String × Span))) (l : List Char)
    (hl : ∀ c ∈ l, c ≠ '\n' ∧ c ≠ '\r') (rest : List Char) (hrest : rest ≠ [])
    (line column offset lineOffset : Nat) (buf : List Char) :
    renderLoop hs (l ++ sep ++ rest) line column offset lineOffset buf =
      contWith (flushEmit hs (line + 1) lineOffset (offset + byteLen l + sep.length) (buf ++ l))
        (renderLoop hs rest (line + 1) 0 (offset + byteLen l + sep.length)
          (offset + byteLen l + sep.length) []) := by
  rw [show l ++ sep ++ rest = l ++ (sep ++ rest) from by simp,
    renderLoop_plainRun hs l hl (sep ++ rest)
      (by rcases hsep with h | h <;> subst h <;> simp) line column offset lineOffset buf]
  rcases hsep with h | h <;> subst h
  · rw [show (['\n'] : List Char) ++ rest = '\n' :: rest from rfl,
      renderLoop_lf hs rest line (column + l.length) (offset + byteLen l) lineOffset
        (buf ++ l) hrest]
    simp [Nat.add_assoc]
  · rw [show (['\r', '\n'] : List Char) ++ rest = '\r' :: '\n' :: rest from rfl,
      renderLoop_crlf hs rest line (column + l.length) (offset + byteLen l) lineOffset
        (buf ++ l) hrest]
    simp [Nat.add_assoc]

theorem renderLoop_lastLineSep (sep : List Char) (hsep : sep = ['\n'] ∨ sep = ['\r', '\n'])
    (hs : Option (List (String × Span))) (l : List Char)
    (hl : ∀ c ∈ l, c ≠ '\n' ∧ c ≠ '\r')
    (line column offset lineOffset : Nat) (buf : List Char) :
    renderLoop hs (l ++ sep) line column offset lineOffset buf =
      flushEmit hs (line + 2) lineOffset (offset + byteLen l + sep.length) (buf ++ l) := by
  rw [renderLoop_plainRun hs l hl sep
    (by rcases hsep with h | h <;> subst h <;> simp) line column offset lineOffset buf]
  rcases hsep with h | h <;> subst h
  · rw [show renderLoop hs ['\n'] line (column + l.length) (offset + byteLen l) lineOffset
        (buf ++ l) = flushEmit hs (line + 2) lineOffset (offset + byteLen l + 1) (buf ++ l)
      from renderLoop_lfLast hs line (column + l.length) (offset + byteLen l) lineOffset (buf ++ l)]
    rfl
  · rw [show renderLoop hs ['\r', '\n'] line (column + l.length) (offset + byteLen l) lineOffset
        (buf ++ l) = flushEmit hs (line + 2) lineOffset (offset + byteLen l + 2) (buf ++ l)
      from renderLoop_crlfLast hs line (column + l.length) (offset + byteLen l) lineOffset
        (buf ++ l)]
    rfl

theorem renderLoop_lastLine (hs : Option (List (String × Span))) (l : List Char)
    (hl : ∀ c ∈ l, c ≠ '\n' ∧ c ≠ '\r') (hne : l ≠ [])
    (line column offset lineOffset : Nat) (buf : List Char) :
    renderLoop hs l line column offset lineOffset buf =
      flushEmit hs (line + 1) lineOffset (offset + byteLen l) (buf ++ l) := by
  rcases List.eq_nil_or_concat l with h | ⟨init, c, h⟩
  · exact absurd h hne
  rw [List.concat_eq_append] at h
  subst h
  have hc := hl c (by simp)
  have hinit : ∀ x ∈ init, x ≠ '\n' ∧ x ≠ '\r' := fun x hx => hl x (by simp [hx])
  rw [renderLoop_plainRun hs init hinit [c] (by simp) line column offset lineOffset buf,
    renderLoop_plainLast hs c line (column + init.length) (offset + byteLen init) lineOffset
      (buf ++ init) hc.2 hc.1]
  rw [byteLen_append, byteLen, byteLen]
  congr 1
  · omega
  · simp

theorem renderLoop_joinPrefix (sep : List Char) (hsep : sep = ['\n'] ∨ sep = ['\r', '\n'])
    (hs : Option (List (String × Span))) (ls : List (List Char)) :
    (∀ l ∈ ls, ∀ c ∈ l, c ≠ '\n' ∧ c ≠ '\r') →
    ∀ (rest : List Char), rest ≠ [] → ∀ (line offset : Nat),
    (∀ p ∈ hs.getD [], p.2.start < offset ∨
      (p.2.start ≤ p.2.stop ∧ offset + byteLen (joinSep sep ls) ≤ p.2.start)) →
    renderLoop hs (joinSep sep ls ++ rest) line 0 offset offset [] =
      (renderLoop hs rest (line + ls.length) 0 (offset + byteLen (joinSep sep ls))
        (offset + byteLen (joinSep sep ls)) []).map (fun x => numberedLines line ls ++ x) := by
  have hsepB : byteLen sep = sep.length := by
    rcases hsep with h | h <;> subst h <;> rfl
  induction ls with
  | nil =>
    intro _ rest hrest line offset hsk
    simp only [joinSep, numberedLines, byteLen, List.nil_append, List.length_nil,
      Nat.add_zero]
    exact (exceptMap_nilPre _).symm
  | cons l ls ih =>
    intro hnb rest hrest line offset hsk
    have hhd : ∀ c ∈ l, c ≠ '\n' ∧ c ≠ '\r' := hnb l (List.mem_cons_self l ls)
    have htl : ∀ m ∈ ls, ∀ c ∈ m, c ≠ '\n' ∧ c ≠ '\r' :=
      fun m hm => hnb m (List.mem_cons_of_mem l hm)
    have hjB : byteLen (joinSep sep (l :: ls)) =
        byteLen l + sep.length + byteLen (joinSep sep ls) := by
      rw [joinSep, byteLen_append, byteLen_append, hsepB]
      try omega
    rw [show joinSep sep (l :: ls) ++ rest = l ++ sep ++ (joinSep sep ls ++ rest) from by
      simp [joinSep]]
    rw [renderLoop_lineSep sep hsep hs l hhd (joinSep sep ls ++ rest)
      (by simp [hrest]) line 0 offset offset []]
    rw [flushEmit_skip hs (line + 1) offset (offset + byteLen l + sep.length) ([] ++ l)
      (by
        intro p hp
        rcases hsk p hp with h | h
        · exact Or.inl h
        · exact Or.inr ⟨h.1, by omega⟩)]
    rw [contWith_ok]
    rw [ih htl rest hrest (line + 1) (offset + byteLen l + sep.length)
      (by
        intro p hp
        rcases hsk p hp with h | h
        · exact Or.inl (by omega)
        · exact Or.inr ⟨h.1, by omega⟩)]
    rw [exceptMap_map]
    rw [show (line + 1) + ls.length = line + (l :: ls).length from by
      rw [List.length_cons]; try omega]
    rw [show offset + byteLen l + sep.length + byteLen (joinSep sep ls) =
      offset + byteLen (joinSep sep (l :: ls)) from by omega]
    congr 1

theorem decodeStep_one (b0 : Nat) (bs : List Nat) (h : b0 < 0x80) :
    decodeStep b0 bs = some (Char.ofNat b0, 0) := by
  rw [decodeStep.eq_def]
  exact if_pos h

theorem decodeStep_two (b0 b1 : Nat) (bs : List Nat)
    (h0 : 0xC2 ≤ b0) (h0' : b0 < 0xE0) (h1 : 0x80 ≤ b1) (h1' : b1 < 0xC0) :
    decodeStep b0 (b1 :: bs) =
      some (Char.ofNat ((b0 - 0xC0) * 0x40 + (b1 - 0x80)), 1) := by
  rw [decodeStep.eq_def]
  rw [if_neg (by omega), if_neg (by omega), if_pos (by omega)]
  exact if_pos ⟨h1, h1'⟩

theorem decodeStep_three (b0 b1 b2 : Nat) (bs : List Nat)
    (h0 : 0xE0 ≤ b0) (h0' : b0 < 0xF0)
    (hc : (if b0 = 0xE0 then 0xA0 else 0x80) ≤ b1 ∧ b1 < (if b0 = 0xED then 0xA0 else 0xC0) ∧
      0x80 ≤ b2 ∧ b2 < 0xC0) :
    decodeStep b0 (b1 :: b2 :: bs) =
      some (Char.ofNat ((b0 - 0xE0) * 0x1000 + (b1 - 0x80) * 0x40 + (b2 - 0x80)), 2) := by
  rw [decodeStep.eq_def]
  rw [if_neg (by omega), if_neg (by omega), if_neg (by omega), if_pos (by omega)]
  exact if_pos hc

theorem decodeStep_four (b0 b1 b2 b3 : Nat) (bs : List Nat)
    (h0 : 0xF0 ≤ b0) (h0' : b0 < 0xF5)
    (hc : (if b0 = 0xF0 then 0x90 else 0x80) ≤ b1 ∧ b1 < (if b0 = 0xF4 then 0x90 else 0xC0) ∧
      0x80 ≤ b2 ∧ b2 < 0xC0 ∧ 0x80 ≤ b3 ∧ b3 < 0xC0) :
    decodeStep b0 (b1 :: b2 :: b3 :: bs) =
      some (Char.ofNat ((b0 - 0xF0) * 0x40000 + (b1 - 0x80) * 0x1000 +
        (b2 - 0x80) * 0x40 + (b3 - 0x80)), 3) := by
  rw [decodeStep.eq_def]
  rw [if_neg (by omega), if_neg (by omega), if_neg (by omega), if_neg (by omega),
    if_pos (by omega)]
  exact if_pos hc

theorem decodeUtf8_encodeChar (c : Char) (bs : List Nat) :
    decodeUtf8 (encodeChar c ++ bs) = (decodeUtf8 bs).map (fun cs => c :: cs) := by
  have hv : c.toNat < 0xD800 ∨ (0xDFFF < c.toNat ∧ c.toNat < 0x110000) := c.valid
  have hofn : Char.ofNat c.toNat = c := Char.ofNat_toNat c
  by_cases h1 : c.toNat < 0x80
  · rw [encodeChar, if_pos h1]
    rw [show [c.toNat] ++ bs = c.toNat :: bs from rfl, decodeUtf8.eq_2,
      decodeStep_one c.toNat bs h1, hofn]
    rfl
  by_cases h2 : c.toNat < 0x800
  · rw [encodeChar, if_neg h1, if_pos h2]
    rw [show [0xC0 + c.toNat / 0x40, 0x80 + c.toNat % 0x40] ++ bs =
      (0xC0 + c.toNat / 0x40) :: (0x80 + c.toNat % 0x40) :: bs from rfl, decodeUtf8.eq_2]
    rw [decodeStep_two (0xC0 + c.toNat / 0x40) (0x80 + c.toNat % 0x40) bs
      (by omega) (by omega) (by omega) (by omega)]
    rw [show (0xC0 + c.toNat / 0x40 - 0xC0) * 0x40 + (0x80 + c.toNat % 0x40 - 0x80) =
      c.toNat from by omega, hofn]
    rfl
  by_cases h3 : c.toNat < 0x10000
  · rw [encodeChar, if_neg h1, if_neg h2, if_pos h3]
    rw [show [0xE0 + c.toNat / 0x1000, 0x80 + c.toNat / 0x40 % 0x40, 0x80 + c.toNat % 0x40] ++ bs =
      (0xE0 + c.toNat / 0x1000) :: (0x80 + c.toNat / 0x40 % 0x40) ::
        (0x80 + c.toNat % 0x40) :: bs from rfl, decodeUtf8.eq_2]
    rw [decodeStep_three (0xE0 + c.toNat / 0x1000) (0x80 + c.toNat / 0x40 % 0x40)
      (0x80 + c.toNat % 0x40) bs (by omega) (by omega)
      (by
        refine ⟨?_, ?_, by omega, by omega⟩
        · by_cases hE : (0xE0 + c.toNat / 0x1000 : Nat) = 0xE0 <;> simp only [hE, if_pos, if_neg,
            reduceIte] <;> omega
        · by_cases hD : (0xE0 + c.toNat / 0x1000 : Nat) = 0xED <;> simp only [hD, if_pos, if_neg,
            reduceIte] <;> omega)]
    rw [show (0xE0 + c.toNat / 0x1000 - 0xE0) * 0x1000 +
      (0x80 + c.toNat / 0x40 % 0x40 - 0x80) * 0x40 + (0x80 + c.toNat % 0x40 - 0x80) =
      c.toNat from by omega, hofn]
    rfl
  · rw [encodeChar, if_neg h1, if_neg h2, if_neg h3]
    rw [show [0xF0 + c.toNat / 0x40000, 0x80 + c.toNat / 0x1000 % 0x40,
        0x80 + c.toNat / 0x40 % 0x40, 0x80 + c.toNat % 0x40] ++ bs =
      (0xF0 + c.toNat / 0x40000) :: (0x80 + c.toNat / 0x1000 % 0x40) ::
        (0x80 + c.toNat / 0x40 % 0x40) :: (0x80 + c.toNat % 0x40) :: bs from rfl,
      decodeUtf8.eq_2]
    rw [decodeStep_four (0xF0 + c.toNat / 0x40000) (0x80 + c.toNat / 0x1000 % 0x40)
      (0x80 + c.toNat / 0x40 % 0x40) (0x80 + c.toNat % 0x40) bs (by omega) (by omega)
      (by
        refine ⟨?_, ?_, by omega, by omega, by omega, by omega⟩
        · by_cases hF : (0xF0 + c.toNat / 0x40000 : Nat) = 0xF0 <;> simp only [hF, if_pos, if_neg,
            reduceIte] <;> omega
        · by_cases hG : (0xF0 + c.toNat / 0x40000 : Nat) = 0xF4 <;> simp only [hG, if_pos, if_neg,
            reduceIte] <;> omega)]
    rw [show (0xF0 + c.toNat / 0x40000 - 0xF0) * 0x40000 +
      (0x80 + c.toNat / 0x1000 % 0x40 - 0x80) * 0x1000 +
      (0x80 + c.toNat / 0x40 % 0x40 - 0x80) * 0x40 + (0x80 + c.toNat % 0x40 - 0x80) =
      c.toNat from by omega, hofn]
    rfl

theorem decodeUtf8_encodeUtf8 (s : List Char) : decodeUtf8 (encodeUtf8 s) = some s := by
  induction s with
  | nil => simp [encodeUtf8, decodeUtf8]
  | cons c cs ih =>
    rw [encodeUtf8, decodeUtf8_encodeChar, ih]
    rfl

theorem render_snippet_mk (text : List Char) (hl : Option (List (String × Span))) :
    render_snippet (mkSnippet text hl) =
      match renderLoop hl text 0 0 0 0 [] with
      | Except.error e => Except.error e
      | Except.ok body => Except.ok ("" :: "[src]" :: "" :: body) := by
  rw [render_snippet.eq_def]
  simp only [mkSnippet]
  rw [decodeUtf8_encodeUtf8]
  rfl

/-- C1: rendering the snippet whose source text is `"let x = 1\nlet y = 2\n"`
with the single highlight `[4, 5)` labelled `"here"` emits (after the snippet
header) the block `"1  | let x = 1"` followed by an annotation row whose
content after the `"⫶  | "` gutter is exactly four spaces, one caret, a
space and the label `"here"` (each emitted line carries the writer's uniform
four-space indent in front). -/
theorem scenario_single_highlight :
    render_snippet (mkSnippet ("let x = 1\nlet y = 2\n".data) (some [("here", ⟨4, 5⟩)])) =
      Except.ok ["", "[src]", "",
        "    " ++ "1  | let x = 1",
        ("    " ++ "⫶  | ") ++ ("    " ++ "^" ++ " " ++ "here"),
        "    " ++ "3  | let y = 2"] := by
  rw [show ("let x = 1\nlet y = 2\n").data =
      "let x = 1".data ++ ['\n'] ++ ("let y = 2".data ++ ['\n']) from rfl]
  rw [render_snippet_mk]
  rw [renderLoop_lineSep ['\n'] (Or.inl rfl) (some [("here", ⟨4, 5⟩)]) ("let x = 1".data)
    (by decide) ("let y = 2".data ++ ['\n']) (by decide) 0 0 0 0 []]
  rw [renderLoop_lastLineSep ['\n'] (Or.inl rfl) (some [("here", ⟨4, 5⟩)]) ("let y = 2".data)
    (by decide) (0 + 1) 0 (0 + byteLen "let x = 1".data + (['\n'] : List Char).length)
    (0 + byteLen "let x = 1".data + (['\n'] : List Char).length) []]
  rfl

theorem joinSep_append (sep : List Char) (a b : List (List Char)) :
    joinSep sep (a ++ b) = joinSep sep a ++ joinSep sep b := by
  induction a with
  | nil => simp [joinSep]
  | cons l t ih => simp [joinSep, ih]

theorem sep_ne_nil (sep : List Char) (hsep : sep = ['\n'] ∨ sep = ['\r', '\n']) : sep ≠ [] := by
  rcases hsep with h | h <;> subst h <;> simp

/-- C2 counterexample: on the snippet text `"a\n"` the only flushed source
line is printed with line number `2`, not the `1` predicted by "one plus
the number of line breaks preceding that line's first character" (zero
breaks precede `'a'`): at end of input the scanner increments `line` once
more before the final flush. -/
theorem line_number_formula_refuted :
    render_snippet (mkSnippet ("a\n".data) none) =
      Except.ok ["", "[src]", "", "    " ++ "2  | a"] ∧
    ("    " ++ "2  | a" : String) ≠ "    " ++ "1  | a" := by
  constructor
  · rw [show ("a\n").data = "a".data ++ ['\n'] from rfl, render_snippet_mk]
    rw [renderLoop_lastLineSep ['\n'] (Or.inl rfl) none "a".data (by decide) 0 0 0 0 []]
    rfl
  · decide

/-- C2 (amended): for a snippet text made of lines separated and terminated
by `\n` or `\r\n`, the printed line number is one plus the number of line
breaks preceding the flushed line's first character — except for the line
flushed at the end of the input, whose number is incremented once more (so
a text ending in a line break numbers its last line two plus the preceding
breaks); a bare `\r` is not treated as a line separator at all (it is
buffered as an ordinary character). -/
theorem line_numbers_terminated (sep : List Char) (ls : List (List Char)) (z : List Char)
    (hsep : sep = ['\n'] ∨ sep = ['\r', '\n'])
    (hnb : ∀ l ∈ ls, ∀ c ∈ l, c ≠ '\n' ∧ c ≠ '\r') (hz : ∀ c ∈ z, c ≠ '\n' ∧ c ≠ '\r') :
    render_snippet (mkSnippet (joinSep sep (ls ++ [z])) none) =
      Except.ok ("" :: "[src]" :: "" ::
        (numberedLines 0 ls ++ [srcLine (ls.length + 2) z])) := by
  rw [render_snippet_mk]
  rw [show joinSep sep (ls ++ [z]) = joinSep sep ls ++ (z ++ sep) from by
    rw [joinSep_append]; simp [joinSep]]
  rw [renderLoop_joinPrefix sep hsep none ls hnb (z ++ sep)
    (by simp [sep_ne_nil sep hsep]) 0 0 (by simp)]
  rw [renderLoop_lastLineSep sep hsep none z hz (0 + ls.length) 0
    (0 + byteLen (joinSep sep ls)) (0 + byteLen (joinSep sep ls)) []]
  rw [show flushEmit none (0 + ls.length + 2) (0 + byteLen (joinSep sep ls))
      (0 + byteLen (joinSep sep ls) + byteLen z + sep.length) ([] ++ z) =
    Except.ok [srcLine (ls.length + 2) z] from by rw [flushEmit]; simp]
  rfl

/-- C2 witness: the amended line-numbering theorem at the concrete text
`"a\nb\nc\n"` — lines `a`, `b` numbered 1 and 2, final line `c` numbered 4. -/
theorem line_numbers_terminated_witness :
    render_snippet (mkSnippet (joinSep ['\n'] ([['a'], ['b']] ++ [['c']])) none) =
      Except.ok ("" :: "[src]" :: "" ::
        (numberedLines 0 [['a'], ['b']] ++ [srcLine ([['a'], ['b']].length + 2) ['c']])) :=
  line_numbers_terminated ['\n'] [['a'], ['b']] ['c'] (Or.inl rfl) (by decide) (by decide)

theorem highlightRows_single_hit (label : String) (a b lineOffset offset : Nat)
    (hge : lineOffset ≤ a) (hlt : b < offset) :
    highlightRows [(label, ⟨a, b⟩)] lineOffset offset =
      Except.ok [annRow label ⟨a, b⟩ lineOffset] := by
  rw [highlightRows]
  rw [if_pos ⟨hge, hlt⟩]
  rfl

theorem highlightRows_single_multiline (label : String) (a b lineOffset offset : Nat)
    (h1 : a < offset) (h2 : lineOffset ≤ a) (h3 : offset ≤ b) :
    highlightRows [(label, ⟨a, b⟩)] lineOffset offset =
      Except.error RenderError.unsupportedHighlight := by
  rw [highlightRows]
  rw [if_neg (show ¬ (lineOffset ≤ a ∧ b < offset) from by omega)]
  rw [if_pos ⟨h1, h2, h3⟩]

/-- C5: a snippet whose context text is non-empty and does not end with a
line break flushes its final unterminated line exactly once — after any
`\n`- or `\r\n`-terminated prefix lines `ls`, the unterminated tail `z`
produces exactly one emitted source line, with the line counter incremented
one extra time at end of input before that flush (its number is
`ls.length + 1`). -/
theorem final_unterminated_line_once (sep : List Char) (ls : List (List Char)) (z : List Char)
    (hsep : sep = ['\n'] ∨ sep = ['\r', '\n'])
    (hnb : ∀ l ∈ ls, ∀ c ∈ l, c ≠ '\n' ∧ c ≠ '\r') (hz : ∀ c ∈ z, c ≠ '\n' ∧ c ≠ '\r')
    (hzne : z ≠ []) :
    render_snippet (mkSnippet (joinSep sep ls ++ z) none) =
      Except.ok ("" :: "[src]" :: "" ::
        (numberedLines 0 ls ++ [srcLine (ls.length + 1) z])) := by
  rw [render_snippet_mk]
  rw [renderLoop_joinPrefix sep hsep none ls hnb z hzne 0 0 (by simp)]
  rw [renderLoop_lastLine none z hz hzne (0 + ls.length) 0
    (0 + byteLen (joinSep sep ls)) (0 + byteLen (joinSep sep ls)) []]
  rw [show flushEmit none (0 + ls.length + 1) (0 + byteLen (joinSep sep ls))
      (0 + byteLen (joinSep sep ls) + byteLen z) ([] ++ z) =
    Except.ok [srcLine (ls.length + 1) z] from by rw [flushEmit]; simp]
  rfl

/-- C5 witness: the final-line theorem at the concrete text `"ab\nc"` — the
unterminated line `c` is emitted exactly once, numbered 2. -/
theorem final_unterminated_line_once_witness :
    render_snippet (mkSnippet (joinSep ['\n'] [['a', 'b']] ++ ['c']) none) =
      Except.ok ("" :: "[src]" :: "" ::
        (numberedLines 0 [['a', 'b']] ++ [srcLine ([['a', 'b']].length + 1) ['c']])) :=
  final_unterminated_line_once ['\n'] [['a', 'b']] ['c'] (Or.inl rfl)
    (by decide) (by decide) (by decide)

/-- C3: a highlight `[a, b)` lying entirely inside one physical source line
(the line `z` following the terminated prefix lines `ls`) produces a caret
annotation row consisting of the `"⫶  | "` gutter, exactly `a − line_offset`
spaces and exactly `b − a = span.len` carets, where
`line_offset = byteLen (joinSep ['\n'] ls)` is the byte offset at which the
flushed line began (see `annRow`: the spaces and carets are
`List.replicate (a − line_offset) ' '` and `List.replicate (b − a) '^'`). -/
theorem caret_row_alignment (ls : List (List Char)) (z : List Char) (label : String) (a b : Nat)
    (hnb : ∀ l ∈ ls, ∀ c ∈ l, c ≠ '\n' ∧ c ≠ '\r') (hz : ∀ c ∈ z, c ≠ '\n' ∧ c ≠ '\r')
    (h1 : byteLen (joinSep ['\n'] ls) ≤ a) (h2 : a ≤ b)
    (h3 : b ≤ byteLen (joinSep ['\n'] ls) + byteLen z) :
    render_snippet (mkSnippet (joinSep ['\n'] ls ++ (z ++ ['\n']))
        (some [(label, ⟨a, b⟩)])) =
      Except.ok ("" :: "[src]" :: "" :: (numberedLines 0 ls ++
        [srcLine (ls.length + 2) z,
         annRow label ⟨a, b⟩ (byteLen (joinSep ['\n'] ls))])) := by
  rw [render_snippet_mk]
  rw [renderLoop_joinPrefix ['\n'] (Or.inl rfl) (some [(label, ⟨a, b⟩)]) ls hnb (z ++ ['\n'])
    (by simp) 0 0
    (by
      intro p hp
      simp only [Option.getD_some, List.mem_singleton] at hp
      subst hp
      exact Or.inr ⟨h2, show 0 + byteLen (joinSep ['\n'] ls) ≤ a from by omega⟩)]
  rw [renderLoop_lastLineSep ['\n'] (Or.inl rfl) (some [(label, ⟨a, b⟩)]) z hz
    (0 + ls.length) 0 (0 + byteLen (joinSep ['\n'] ls)) (0 + byteLen (joinSep ['\n'] ls)) []]
  rw [show flushEmit (some [(label, ⟨a, b⟩)]) (0 + ls.length + 2)
      (0 + byteLen (joinSep ['\n'] ls))
      (0 + byteLen (joinSep ['\n'] ls) + byteLen z + (['\n'] : List Char).length) ([] ++ z) =
    Except.ok [srcLine (ls.length + 2) z,
      annRow label ⟨a, b⟩ (byteLen (joinSep ['\n'] ls))] from by
    rw [flushEmit]
    rw [highlightRows_single_hit label a b (0 + byteLen (joinSep ['\n'] ls))
      (0 + byteLen (joinSep ['\n'] ls) + byteLen z + (['\n'] : List Char).length)
      (by omega) (by simp; omega)]
    simp [Except.map]]
  rfl

/-- C3 witness: the caret-alignment theorem at the concrete text
`"ab\ncdef\n"` with highlight `[4, 6)` labelled `"w"` on the second line
(line offset 3): two spaces, two carets. -/
theorem caret_row_alignment_witness :
    render_snippet (mkSnippet (joinSep ['\n'] [['a', 'b']] ++ (['c', 'd', 'e', 'f'] ++ ['\n']))
        (some [("w", ⟨4, 6⟩)])) =
      Except.ok ("" :: "[src]" :: "" :: (numberedLines 0 [['a', 'b']] ++
        [srcLine ([['a', 'b']].length + 2) ['c', 'd', 'e', 'f'],
         annRow "w" ⟨4, 6⟩ (byteLen (joinSep ['\n'] [['a', 'b']]))])) :=
  caret_row_alignment [['a', 'b']] ['c', 'd', 'e', 'f'] "w" 4 6
    (by decide) (by decide) (by decide) (by decide) (by decide)

/-- C4: one iteration of the scan behaves exactly as specified, with more
input pending: `\r\n` consumes both characters, advances the offset by one
extra byte (2 in total), increments the line, resets the column and buffers
neither character (the old buffer is flushed, the new one is empty); a bare
`\r` not followed by `\n` is appended to the buffer and bumps the column; a
lone `\n` increments the line, resets the column and is not buffered; any
other character is buffered and bumps the column. -/
theorem scan_step_behavior (hs : Option (List (String × Span))) (c c2 : Char)
    (rest : List Char) (line column offset lineOffset : Nat) (buf : List Char)
    (hrest : rest ≠ []) (hcr : c ≠ '\r') (hlf : c ≠ '\n') (h2 : c2 ≠ '\n') :
    (renderLoop hs ('\r' :: '\n' :: rest) line column offset lineOffset buf =
      contWith (flushEmit hs (line + 1) lineOffset (offset + 2) buf)
        (renderLoop hs rest (line + 1) 0 (offset + 2) (offset + 2) [])) ∧
    (renderLoop hs ('\r' :: c2 :: rest) line column offset lineOffset buf =
      renderLoop hs (c2 :: rest) line (column + 1) (offset + 1) lineOffset (buf ++ ['\r'])) ∧
    (renderLoop hs ('\n' :: rest) line column offset lineOffset buf =
      contWith (flushEmit hs (line + 1) lineOffset (offset + 1) buf)
        (renderLoop hs rest (line + 1) 0 (offset + 1) (offset + 1) [])) ∧
    (renderLoop hs (c :: rest) line column offset lineOffset buf =
      renderLoop hs rest line (column + 1) (offset + lenUtf8 c) lineOffset (buf ++ [c])) :=
  ⟨renderLoop_crlf hs rest line column offset lineOffset buf hrest,
   renderLoop_cr hs c2 rest line column offset lineOffset buf h2,
   renderLoop_lf hs rest line column offset lineOffset buf hrest,
   renderLoop_plain hs c rest line column offset lineOffset buf hcr hlf hrest⟩

/-- C4 witness: the step classification instantiated at concrete state. -/
theorem scan_step_behavior_witness :
    (renderLoop none ('\r' :: '\n' :: ['x']) 0 0 0 0 [] =
      contWith (flushEmit none (0 + 1) 0 (0 + 2) [])
        (renderLoop none ['x'] (0 + 1) 0 (0 + 2) (0 + 2) [])) ∧
    (renderLoop none ('\r' :: 'b' :: ['x']) 0 0 0 0 [] =
      renderLoop none ('b' :: ['x']) 0 (0 + 1) (0 + 1) 0 ([] ++ ['\r'])) ∧
    (renderLoop none ('\n' :: ['x']) 0 0 0 0 [] =
      contWith (flushEmit none (0 + 1) 0 (0 + 1) [])
        (renderLoop none ['x'] (0 + 1) 0 (0 + 1) (0 + 1) [])) ∧
    (renderLoop none ('a' :: ['x']) 0 0 0 0 [] =
      renderLoop none ['x'] 0 (0 + 1) (0 + lenUtf8 'a') 0 ([] ++ ['a'])) :=
  scan_step_behavior none 'a' 'b' ['x'] 0 0 0 0 []
    (by decide) (by decide) (by decide) (by decide)

/-- C6: a highlight whose span starts within the byte range of a flushed
line but does not end within it — here a span from inside line 1 reaching
into line 2 — makes the renderer surface the UnsupportedHighlight
condition (the `todo!("Multiline highlights.")` abort) instead of emitting
an annotation row. -/
theorem multiline_highlight_unsupported (l1 l2 : List Char) (label : String) (a b : Nat)
    (h1 : ∀ c ∈ l1, c ≠ '\n' ∧ c ≠ '\r') (_h2 : ∀ c ∈ l2, c ≠ '\n' ∧ c ≠ '\r')
    (ha : a ≤ byteLen l1) (hb : byteLen l1 + 1 ≤ b) :
    render_snippet (mkSnippet (l1 ++ '\n' :: (l2 ++ ['\n'])) (some [(label, ⟨a, b⟩)])) =
      Except.error RenderError.unsupportedHighlight := by
  rw [render_snippet_mk]
  rw [show l1 ++ '\n' :: (l2 ++ ['\n']) = l1 ++ ['\n'] ++ (l2 ++ ['\n']) from by simp]
  rw [renderLoop_lineSep ['\n'] (Or.inl rfl) (some [(label, ⟨a, b⟩)]) l1 h1 (l2 ++ ['\n'])
    (by simp) 0 0 0 0 []]
  rw [show flushEmit (some [(label, ⟨a, b⟩)]) (0 + 1) 0
      (0 + byteLen l1 + (['\n'] : List Char).length) ([] ++ l1) =
    Except.error RenderError.unsupportedHighlight from by
    rw [flushEmit]
    rw [highlightRows_single_multiline label a b 0
      (0 + byteLen l1 + (['\n'] : List Char).length)
      (by simp; omega) (by omega) (by simp; omega)]
    rfl]
  rfl

/-- C6 witness: the multiline-highlight theorem at the concrete snippet
`"ab\ncd\n"` with span `[1, 4)` (mid-line-1 to mid-line-2). -/
theorem multiline_highlight_unsupported_witness :
    render_snippet (mkSnippet (['a', 'b'] ++ '\n' :: (['c', 'd'] ++ ['\n']))
        (some [("x", ⟨1, 4⟩)])) =
      Except.error RenderError.unsupportedHighlight :=
  multiline_highlight_unsupported ['a', 'b'] ['c', 'd'] "x" 1 4
    (by decide) (by decide) (by decide) (by decide)

/-- C10: the single-line test demands `span.end < offset`, so any highlight
whose span end is at or past the scan offset at flush time falls through to
the fatal multiline branch — reachable even for a highlight whose visible
text lies on a single line but whose span also covers that line's
terminating newline byte (`end = offset`). -/
theorem highlight_end_at_offset_unsupported (z : List Char) (label : String) (a b : Nat)
    (hz : ∀ c ∈ z, c ≠ '\n' ∧ c ≠ '\r') (ha : a ≤ byteLen z) (hb : byteLen z + 1 ≤ b) :
    render_snippet (mkSnippet (z ++ ['\n']) (some [(label, ⟨a, b⟩)])) =
      Except.error RenderError.unsupportedHighlight := by
  rw [render_snippet_mk]
  rw [renderLoop_lastLineSep ['\n'] (Or.inl rfl) (some [(label, ⟨a, b⟩)]) z hz 0 0 0 0 []]
  rw [show flushEmit (some [(label, ⟨a, b⟩)]) (0 + 2) 0
      (0 + byteLen z + (['\n'] : List Char).length) ([] ++ z) =
    Except.error RenderError.unsupportedHighlight from by
    rw [flushEmit]
    rw [highlightRows_single_multiline label a b 0
      (0 + byteLen z + (['\n'] : List Char).length)
      (by simp; omega) (by omega) (by simp; omega)]
    rfl]

/-- C10 witness: the text `"let x = 1\n"` (9 visible bytes plus the
newline) with highlight `[4, 10)`: the span's visible text `"x = 1"` lies
on one line, its end equals the flush-time offset 10 (it covers the
terminating newline), and the render aborts with UnsupportedHighlight. -/
theorem highlight_end_at_offset_unsupported_witness :
    render_snippet (mkSnippet ("let x = 1".data ++ ['\n']) (some [("here", ⟨4, 10⟩)])) =
      Except.error RenderError.unsupportedHighlight :=
  highlight_end_at_offset_unsupported ("let x = 1".data) "here" 4 10
    (by decide) (by decide) (by decide)

/-- C7: when the snippet's source bytes fail UTF-8 decoding, the snippet
render aborts with the MalformedSource condition (the model of
`expect("Bad utf8 detected")`). -/
theorem malformed_source_condition (s : Snippet) (cd : SpanContents)
    (hread : s.read_span s.context = Except.ok cd) (hbad : decodeUtf8 cd.data = none) :
    render_snippet s = Except.error RenderError.malformedSource := by
  rw [render_snippet.eq_def]
  simp [hread, hbad]

/-- C7 witness: a snippet whose reader returns the single byte `0xFF`
(never valid in UTF-8) renders to MalformedSource. -/
theorem malformed_source_condition_witness :
    render_snippet ⟨"src", none, ⟨0, 1⟩, none, fun _ => Except.ok ⟨[0xFF], 0, 0⟩⟩ =
      Except.error RenderError.malformedSource :=
  malformed_source_condition _ ⟨[0xFF], 0, 0⟩ rfl (by rw [decodeUtf8.eq_2]; rfl)

/-- C9: a failing `read_span` for the snippet's context span propagates as
the formatting-error result (`fmt::Error` via `map_err`), not a panic: the
render function totally returns the error value. -/
theorem read_span_failure_propagates (s : Snippet)
    (hread : s.read_span s.context = Except.error ()) :
    render_snippet s = Except.error RenderError.fmtError := by
  rw [render_snippet.eq_def]
  simp [hread]

/-- C9 witness: a snippet whose reader always fails renders to the
formatting error. -/
theorem read_span_failure_propagates_witness :
    render_snippet ⟨"src", none, ⟨0, 1⟩, none, fun _ => Except.error ()⟩ =
      Except.error RenderError.fmtError :=
  read_span_failure_propagates _ rfl

theorem splitLinesL_noNL (l : List Char) (h : ∀ c ∈ l, c ≠ '\n') :
    splitLinesL l = [l] := by
  induction l with
  | nil => rfl
  | cons c cs ih =>
    rw [splitLinesL]
    rw [if_neg (h c (List.mem_cons_self c cs))]
    rw [ih (fun x hx => h x (List.mem_cons_of_mem c hx))]

theorem string_mk_data (s : String) : String.mk s.data = s := by
  cases s
  rfl

theorem string_data_ne_nil (s : String) (h : s ≠ "") : s.data ≠ [] := by
  intro hd
  apply h
  cases s
  simp at hd
  rw [hd]

theorem uniformIndent_single (m : String) (h : ∀ c ∈ m.data, c ≠ '\n') (hne : m ≠ "") :
    uniformIndent m = "    " ++ m := by
  rw [uniformIndent, splitLinesL_noNL m.data h]
  rw [List.map_singleton, if_neg (string_data_ne_nil m hne), string_mk_data]
  rfl

theorem numberedIndent_single (n : Nat) (m : String) (h : ∀ c ∈ m.data, c ≠ '\n')
    (hne : m ≠ "") :
    numberedIndent n m = padRightAlign4 (toString n) ++ ": " ++ m := by
  rw [numberedIndent, splitLinesL_noNL m.data h]
  show "\n".intercalate
      ((if m.data = [] then "" else padRightAlign4 (toString n) ++ ": " ++ String.mk m.data) ::
        List.map (fun l => if l = [] then "" else "      " ++ String.mk l) []) =
    padRightAlign4 (toString n) ++ ": " ++ m
  rw [if_neg (string_data_ne_nil m hne), string_mk_data]
  rfl

theorem enumFrom_map_numbered (msgs : List String) (k : Nat)
    (h : ∀ m ∈ msgs, (∀ c ∈ m.data, c ≠ '\n') ∧ m ≠ "") :
    (List.enumFrom k msgs).map (fun p => "\n" ++ numberedIndent p.1 p.2) =
      (List.enumFrom k msgs).map
        (fun p => "\n" ++ (padRightAlign4 (toString p.1) ++ ": " ++ p.2)) := by
  induction msgs generalizing k with
  | nil => rfl
  | cons m t ih =>
    have hm := h m (List.mem_cons_self m t)
    rw [List.enumFrom, List.map_cons, List.map_cons]
    rw [show numberedIndent (k, m).1 (k, m).2 = numberedIndent k m from rfl,
      numberedIndent_single k m hm.1 hm.2]
    rw [ih (k + 1) (fun x hx => h x (List.mem_cons_of_mem m hx))]

/-- C8: when the cause chain has exactly one link, the cause line is written
through the uniform indenter — four spaces, no positional index; when the
chain has two or more links (the cause itself has a source), every cause
line is prefixed with its zero-based position in the chain, right-aligned
in width four and followed by `": "`. -/
theorem cause_chain_index_prefix (m : String) (e : ErrorObj)
    (hm : (∀ c ∈ m.data, c ≠ '\n') ∧ m ≠ "")
    (he : ∀ msg ∈ chainList e, (∀ c ∈ msg.data, c ≠ '\n') ∧ msg ≠ "") :
    render_causes (some (ErrorObj.leaf m)) = "\n\nCaused by:" ++ ("\n" ++ ("    " ++ m)) ∧
    render_causes (some (ErrorObj.node m e)) =
      "\n\nCaused by:" ++ String.join ((List.enumFrom 0 (m :: chainList e)).map
        (fun p => "\n" ++ (padRightAlign4 (toString p.1) ++ ": " ++ p.2))) := by
  constructor
  · rw [render_causes]
    simp only [ErrorObj.sourceOpt, Option.isSome_none, Bool.false_eq_true, if_false,
      chainList, List.enum, List.enumFrom, List.map]
    rw [show uniformIndent (0, m).2 = uniformIndent m from rfl,
      uniformIndent_single m hm.1 hm.2]
    rfl
  · rw [render_causes]
    simp only [ErrorObj.sourceOpt, Option.isSome_some, if_true, chainList, List.enum]
    rw [enumFrom_map_numbered (m :: chainList e) 0
      (by
        intro x hx
        rcases List.mem_cons.mp hx with h | h
        · subst h; exact hm
        · exact he x h)]

/-- C8 witness: the cause-chain indexing theorem at the concrete messages
`"outer"` and `"inner"`. -/
theorem cause_chain_index_prefix_witness :
    render_causes (some (ErrorObj.leaf "outer")) =
      "\n\nCaused by:" ++ ("\n" ++ ("    " ++ "outer")) ∧
    render_causes (some (ErrorObj.node "outer" (ErrorObj.leaf "inner"))) =
      "\n\nCaused by:" ++ String.join
        ((List.enumFrom 0 ("outer" :: chainList (ErrorObj.leaf "inner"))).map
          (fun p => "\n" ++ (padRightAlign4 (toString p.1) ++ ": " ++ p.2))) :=
  cause_chain_index_prefix "outer" (ErrorObj.leaf "inner") (by decide) (by decide)
